import Mathlib

/-!
Shallow embedding of `src/lexer.rs` (repository `tetanus`), a lexical
analyzer for a small toy language, together with proofs checking the
natural-language specification against it.

Modelling conventions:
* The input text is a `List Char` of Unicode scalar values and cursor
  positions count scalar values.  The Rust source indexes bytes; on the
  ASCII inputs exercised here the two notions coincide.
* Rust `Result`/task behaviour is modelled by `LexResult`: `.ok`, `.err`
  (a returned `LexerError`) and `.abort` (a failed runtime assertion,
  i.e. a Rust task panic, which the source can hit through
  `str::slice(begin, end)` when `begin > end`).
* The two unbounded source loops (the string-terminator search and the
  top-level `tokenize` loop) are given explicit fuel.  Every iteration
  strictly advances the cursor, so the fuel supplied by the entry points
  (`code.length + 1`) can never be exhausted; exhaustion is mapped to
  `.abort` and is unreachable from `tokenize`.
-/

namespace Tetanus

/-- The token type of the lexer (`enum Token` in the source).  The payload
of `Float` (an `f64`) is omitted: the scanner never constructs a `Float`
and no claim mentions it. -/
inductive Token where
  | If | Loop | Break | Continue | Let
  | LParen | RParen | LBrace | RBrace
  | Fn | Macro
  | Plus | Minus | Times | Divide | Equal | Less | Great | Period | Comma
  | Newline
  | Str (s : List Char)
  | Int (n : Int)
  | Float
  | Bool (b : Bool)
  | Ident (s : List Char)
  deriving DecidableEq, Repr

/-- The error discriminant (`enum LexerErrorKind`). -/
inductive LexerErrorKind where
  | EndOfData | UnmatchedToken | IntegerOverflow
  deriving DecidableEq, Repr

/-- The error value (`struct LexerError`): a kind plus an optional
human-readable description. -/
structure LexerError where
  kind : LexerErrorKind
  desc : Option String
  deriving DecidableEq, Repr

/-- Outcome of a lexer computation: success, a returned `LexerError`, or a
Rust task panic (failed `slice` assertion).  The source's `LexerResult<T>`
is `Result<T, LexerError>`; `.abort` captures the runtime's own failure
mode, which no `Result` value ever reports. -/
inductive LexResult (α : Type) where
  | ok (val : α)
  | err (e : LexerError)
  | abort
  deriving DecidableEq, Repr

/-- `Lexer::is_whitespace`: only tab and space (newline is excluded, it is
a token of its own). -/
def is_whitespace (ch : Char) : Bool :=
  ch = '\t' || ch = ' '

/-- The Unicode `White_Space` test used by the identifier loop through
Rust's `char::is_whitespace`. -/
def rustIsWhitespace (c : Char) : Bool :=
  (0x9 ≤ c.toNat && c.toNat ≤ 0xD) || c.toNat = 0x20 || c.toNat = 0x85 ||
  c.toNat = 0xA0 || c.toNat = 0x1680 ||
  (0x2000 ≤ c.toNat && c.toNat ≤ 0x200A) ||
  c.toNat = 0x2028 || c.toNat = 0x2029 || c.toNat = 0x202F ||
  c.toNat = 0x205F || c.toNat = 0x3000

/-- Decimal-digit test: the `'0'..'9'` pattern of the number branch and the
`char::is_digit` test of its consuming loop (modelled on ASCII digits; every
digit appearing in the claims is ASCII). -/
def isAsciiDigit (c : Char) : Bool :=
  0x30 ≤ c.toNat && c.toNat ≤ 0x39

/-- `Lexer::skip_whitespace`: advance the cursor over leading tab/space
characters of `code.slice_from(idx)`. -/
def skip_whitespace (code : List Char) (idx : Nat) : Nat :=
  idx + ((code.drop idx).takeWhile is_whitespace).length

/-- `str::find('"')` on a slice: index of the first double quote,
relative to the slice searched. -/
def findQuote : List Char → Option Nat
  | [] => none
  | c :: cs => if c = '"' then some 0 else (findQuote cs).map (fun r => r + 1)

/-- The backslash count of the string scanner: number of trailing
backslashes of a slice, counted over the reversed characters. -/
def trailingBackslashes (l : List Char) : Nat :=
  (l.reverse.takeWhile (fun c => c = '\\')).length

/-- Result of the string-terminator search loop. -/
inductive StrScan where
  | found (endIdx : Nat)
  | unmatched
  | abort
  deriving DecidableEq, Repr

/-- The `loop` of the string branch of `Lexer::find_symbol_token`.  The
source calls `code.slice_from(idx).find('"')`, obtaining an index `r`
RELATIVE to the searched slice, and then uses `r` as an ABSOLUTE index:
it slices `code.slice(idx, r)` for the backslash count (a panic when
`r < idx`), breaks with `idx = r` on an even count, and continues from
`idx = r + 1` on an odd count.  This relative/absolute confusion is
modelled exactly as written. -/
def strLoop (code : List Char) : Nat → Nat → StrScan
  | 0, _ => .abort
  | fuel + 1, idx =>
    match findQuote (code.drop idx) with
    | some r =>
      if r < idx then .abort
      else if trailingBackslashes ((code.drop idx).take (r - idx)) % 2 = 0 then
        .found r
      else
        strLoop code fuel (r + 1)
    | none => .unmatched

/-- The description produced for an unterminated string,
`format!("mismatched '\"' starting at line {}", line)`. -/
def msgUnmatched (line : Nat) : String :=
  "mismatched " ++ String.singleton (Char.ofNat 39) ++ "\"" ++
    String.singleton (Char.ofNat 39) ++ " starting at line " ++ toString line

/-- The description produced for an integer overflow,
`format!("'{}' at line {} is too big", buffer, line)`. -/
def msgOverflow (buf : List Char) (line : Nat) : String :=
  String.singleton (Char.ofNat 39) ++ String.mk buf ++
    String.singleton (Char.ofNat 39) ++ " at line " ++ toString line ++
    " is too big"

/-- Decimal value of a digit string. -/
def digitsToNat (l : List Char) : Nat :=
  l.foldl (fun acc c => 10 * acc + (c.toNat - 0x30)) 0

/-- `from_str::<i64>` restricted to the buffers the scanner builds (a
nonempty run of decimal digits): the parse fails exactly when the value
exceeds `i64::MAX = 2^63 - 1`. -/
def from_str_i64 (s : List Char) : Option Int :=
  if s.isEmpty then none
  else if s.all isAsciiDigit then
    if digitsToNat s ≤ 9223372036854775807 then some (Int.ofNat (digitsToNat s))
    else none
  else none

/-- `Lexer::find_symbol_token`.  Single characters map to their tokens;
`'\n'` additionally increments the line; `'"'` enters the string branch:
`idx` steps past the quote, `start` remembers that position, the
terminator search runs (`strLoop`), and on success the payload is
`code.slice(start, idx + 1)` for the final `idx`.  A character with no
match yields `none`.  The out-of-bounds case of `code.char_at(idx)` is
unreachable (every call site has `idx < code.length`). -/
def find_symbol_token (code : List Char) (idx line : Nat) :
    Option (LexResult (Token × Nat × Nat)) :=
  match (code.drop idx).head? with
  | none => none
  | some ch =>
    if ch = '"' then
      match strLoop code (code.length + 1) (idx + 1) with
      | .found e =>
        some (.ok (.Str ((code.drop (idx + 1)).take (e + 1 - (idx + 1))), e + 1, line))
      | .unmatched => some (.err ⟨.UnmatchedToken, some (msgUnmatched line)⟩)
      | .abort => some .abort
    else if ch = '(' then some (.ok (.LParen, idx + 1, line))
    else if ch = ')' then some (.ok (.RParen, idx + 1, line))
    else if ch = '{' then some (.ok (.LBrace, idx + 1, line))
    else if ch = '}' then some (.ok (.RBrace, idx + 1, line))
    else if ch = '+' then some (.ok (.Plus, idx + 1, line))
    else if ch = '-' then some (.ok (.Minus, idx + 1, line))
    else if ch = '*' then some (.ok (.Times, idx + 1, line))
    else if ch = '/' then some (.ok (.Divide, idx + 1, line))
    else if ch = '=' then some (.ok (.Equal, idx + 1, line))
    else if ch = '<' then some (.ok (.Less, idx + 1, line))
    else if ch = '>' then some (.ok (.Great, idx + 1, line))
    else if ch = '.' then some (.ok (.Period, idx + 1, line))
    else if ch = ',' then some (.ok (.Comma, idx + 1, line))
    else if ch = '\n' then some (.ok (.Newline, idx + 1, line + 1))
    else none

/-- The character set on which `find_symbol_token` produces `some`. -/
def isSymbolChar (c : Char) : Bool :=
  c = '"' || c = '(' || c = ')' || c = '{' || c = '}' || c = '+' ||
  c = '-' || c = '*' || c = '/' || c = '=' || c = '<' || c = '>' ||
  c = '.' || c = ',' || c = '\n'

/-- The consuming `for` loop of the identifier branch of
`Lexer::find_token`: the iterator walks the characters at positions
`idx, idx+1, ...` and stops at Unicode whitespace, a double quote, or a
position where `find_symbol_token` matches; every other character (digits
included) is appended to the buffer.  The list argument is always
`code.drop idx` at the call sites. -/
def identLoop (code : List Char) (line : Nat) : List Char → Nat → List Char × Nat
  | [], idx => ([], idx)
  | ch :: rest, idx =>
    if rustIsWhitespace ch then ([], idx)
    else if ch = '"' then ([], idx)
    else if (find_symbol_token code idx line).isSome then ([], idx)
    else
      let p := identLoop code line rest (idx + 1)
      (ch :: p.1, p.2)

/-- The keyword table of the identifier branch (`match buffer.as_slice()`). -/
def keyword_match (buffer : List Char) : Token :=
  if buffer = ("if").data then .If
  else if buffer = ("loop").data then .Loop
  else if buffer = ("break").data then .Break
  else if buffer = ("continue").data then .Continue
  else if buffer = ("let").data then .Let
  else if buffer = ("fn").data then .Fn
  else if buffer = ("macro").data then .Macro
  else if buffer = ("true").data then .Bool true
  else if buffer = ("false").data then .Bool false
  else .Ident buffer

/-- `Lexer::find_token`: skip tab/space, report `EndOfData` at the end of
input, otherwise try a symbol match, then the number branch (maximal digit
run, parsed by `from_str::<i64>`, overflow reported with the offending
buffer and line), otherwise the identifier branch (`identLoop` followed by
the keyword table).  The `head? = none` case inside is unreachable because
`len` is `code.length` at the call site and `idx < len` there. -/
def find_token (code : List Char) (idx0 len line : Nat) :
    LexResult (Token × Nat × Nat) :=
  if skip_whitespace code idx0 < len then
    match find_symbol_token code (skip_whitespace code idx0) line with
    | some (.ok (token, index, newLine)) => .ok (token, index, newLine)
    | some (.err f) => .err f
    | some .abort => .abort
    | none =>
      match (code.drop (skip_whitespace code idx0)).head? with
      | none => .abort
      | some ch =>
        if isAsciiDigit ch then
          match from_str_i64
              (ch :: (code.drop (skip_whitespace code idx0 + 1)).takeWhile isAsciiDigit) with
          | some m =>
            .ok (.Int m,
              skip_whitespace code idx0 +
                (ch :: (code.drop (skip_whitespace code idx0 + 1)).takeWhile isAsciiDigit).length,
              line)
          | none =>
            .err ⟨.IntegerOverflow,
              some (msgOverflow
                (ch :: (code.drop (skip_whitespace code idx0 + 1)).takeWhile isAsciiDigit)
                line)⟩
        else
          .ok (keyword_match
              (ch :: (identLoop code line
                (code.drop (skip_whitespace code idx0 + 1))
                (skip_whitespace code idx0 + 1)).1),
            (identLoop code line
              (code.drop (skip_whitespace code idx0 + 1))
              (skip_whitespace code idx0 + 1)).2,
            line)
  else .err ⟨.EndOfData, none⟩

/-- The driving loop of `Lexer::tokenize`: repeatedly call `find_token`,
swallow `EndOfData` as successful termination, propagate any other error,
and append each token to the result vector. -/
def tokenizeAux (code : List Char) : Nat → Nat → Nat → List Token → LexResult (List Token)
  | 0, _, _, _ => .abort
  | fuel + 1, idx, line, acc =>
    match find_token code idx code.length line with
    | .ok (token, index, newLine) => tokenizeAux code fuel index newLine (acc ++ [token])
    | .err f =>
      match f.kind with
      | .EndOfData => .ok acc
      | .UnmatchedToken => .err f
      | .IntegerOverflow => .err f
    | .abort => .abort

/-- Number of `Newline` tokens in a token list (used to state how the
line counter relates to the emitted tokens). -/
def newlineCount (toks : List Token) : Nat :=
  (toks.filter (fun t => t = Token.Newline)).length

/-- `Lexer::tokenize`: run the loop from offset `0`, line `1`, with an
empty result vector. -/
def tokenize (code : List Char) : LexResult (List Token) :=
  tokenizeAux code (code.length + 1) 0 1 []

end Tetanus

namespace Tetanus

/-! ## Concrete evaluations settling the example-based claims -/

/-- C1. The spec asserts that every input with no oversized digit run and
no unterminated string literal tokenizes successfully.  The code breaks
this on `"ab"` (a correctly terminated string literal): the scanner treats
the slice-relative result of `find('"')` as an absolute offset, leaves the
cursor on the closing quote, and the phantom second literal started there
ends in `UnmatchedToken`. -/
theorem claim1_eval :
    tokenize ("\"ab\"").data =
      .err ⟨.UnmatchedToken, some (msgUnmatched 1)⟩ := by decide

/-- C2. On the spec's worked escape example — quote, `a`, backslash, quote,
`b`, quote — the claim demands a single `Str` token spanning the whole
literal.  The code instead emits `Str "a\"` (wrong span, escaped quote not
honoured) and then dies on the `slice(begin, end)` assertion with
`begin > end` while scanning the phantom literal that follows: the run
aborts instead of producing one token. -/
theorem claim2_eval :
    tokenize ("\"a\\\"b\"").data = .abort ∧
    find_token ("\"a\\\"b\"").data 0 6 1 =
      .ok (.Str ("a\\").data, 3, 1) := by
  constructor <;> decide

/-- C3. The worked example `fn main() { 3 + 4 }` produces exactly the nine
claimed tokens in order. -/
theorem claim3_example :
    tokenize ("fn main() \x7b 3 + 4 \x7d").data =
      .ok [.Fn, .Ident ("main").data, .LParen, .RParen, .LBrace,
           .Int 3, .Plus, .Int 4, .RBrace] := by decide

/-- C4. The claim's own example `"abc` does fail with `UnmatchedToken` at
line 1, but the universally quantified claim breaks on `x"""abc`: the
literal opened by the third quote is unterminated, yet the scanner panics
on the `slice` assertion (relative index `0` used as absolute with
`begin = 2`) instead of returning `UnmatchedToken`. -/
theorem claim4_eval :
    tokenize ("\"abc").data =
      .err ⟨.UnmatchedToken, some (msgUnmatched 1)⟩ ∧
    tokenize ("x\"\"\"abc").data = .abort := by
  constructor <;> decide

/-- C5 counterexample. The input `x99999999999999999999` contains a maximal
ASCII-digit run whose value exceeds the `i64` range, but the identifier
scanner does not break on digits, absorbs the whole run into an
identifier, and tokenization succeeds — no `IntegerOverflow` is raised. -/
theorem claim5_counterexample :
    tokenize ("x99999999999999999999").data =
      .ok [.Ident ("x99999999999999999999").data] ∧
    (Token.Ident ("x99999999999999999999").data) ≠
      .Int 99999999999999999999 := by
  constructor <;> decide

/-- C6 counterexample. On the input quote–newline–newline the failing
string search consumes both newline characters before the error is
detected, yet the error reports line 1, not line 3: newlines consumed
inside a string scan never advance the line counter. -/
theorem claim6_counterexample :
    tokenize ("\"\n\n").data =
      .err ⟨.UnmatchedToken, some (msgUnmatched 1)⟩ ∧
    msgUnmatched 1 ≠ msgUnmatched 3 := by
  constructor <;> decide

/-- C7 counterexample. A single scan step over the literal `"\n"` consumes
the characters at offsets 0 and 1 — among them one newline — but returns
line 1 unchanged: the line number does not increase by one for a newline
character consumed inside a string literal. -/
theorem claim7_counterexample :
    find_symbol_token ("\"\n\"").data 0 1 =
      some (.ok (.Str ['\n'], 2, 1)) ∧
    ((("\"\n\"").data.take 2).count '\n' = 1 ∧ (1 : Nat) ≠ 1 + 1) := by
  constructor <;> decide

/-- C8 counterexample. The input `123` is a maximal non-symbol run that is
none of the nine keywords, yet it tokenizes to `Int 123`, not to an
`Ident` carrying its text: digit-initial runs go to the number scanner. -/
theorem claim8_counterexample :
    tokenize ("123").data = .ok [.Int 123] ∧
    (Token.Int 123) ≠ .Ident ("123").data := by
  constructor <;> decide

end Tetanus

namespace Tetanus

/-! ## Helper lemmas about the scanning primitives -/

theorem skip_ge (code : List Char) (idx : Nat) : idx ≤ skip_whitespace code idx :=
  Nat.le_add_right idx _

theorem skip_stop {code : List Char} {idx : Nat} {c : Char} {t : List Char}
    (hd : code.drop idx = c :: t) (hc : is_whitespace c = false) :
    skip_whitespace code idx = idx := by
  unfold skip_whitespace
  rw [hd, List.takeWhile_cons_of_neg (by simp [hc])]
  simp

theorem drop_lt_length {code : List Char} {idx : Nat} {c : Char} {t : List Char}
    (hd : code.drop idx = c :: t) : idx < code.length := by
  have h := congrArg List.length hd
  simp [List.length_drop] at h
  omega

theorem drop_succ_of_drop {code : List Char} {idx : Nat} {c : Char} {t : List Char}
    (hd : code.drop idx = c :: t) : code.drop (idx + 1) = t := by
  have h : (code.drop idx).tail = code.drop (idx + 1) := List.tail_drop code idx
  rw [hd] at h
  exact h.symm

theorem takeWhile_all {p : Char → Bool} : ∀ {l : List Char},
    (∀ c ∈ l, p c = true) → l.takeWhile p = l
  | [], _ => rfl
  | c :: t, h => by
    rw [List.takeWhile_cons_of_pos (h c (by simp))]
    rw [takeWhile_all (fun x hx => h x (by simp [hx]))]

theorem strLoop_found_ge (code : List Char) :
    ∀ fuel j e, strLoop code fuel j = .found e → j ≤ e := by
  intro fuel
  induction fuel with
  | zero => intro j e h; simp [strLoop] at h
  | succ n ih =>
    intro j e h
    rw [strLoop] at h
    rcases hq : findQuote (code.drop j) with _ | r
    · rw [hq] at h
      simp at h
    · rw [hq] at h
      dsimp only at h
      by_cases hlt : r < j
      · rw [if_pos hlt] at h
        simp at h
      · rw [if_neg hlt] at h
        by_cases hev : trailingBackslashes ((code.drop j).take (r - j)) % 2 = 0
        · rw [if_pos hev] at h
          cases h
          omega
        · rw [if_neg hev] at h
          have := ih (r + 1) e h
          omega

theorem identLoop_ge (code : List Char) (line : Nat) :
    ∀ (l : List Char) (j : Nat), j ≤ (identLoop code line l j).2 := by
  intro l
  induction l with
  | nil => intro j; simp [identLoop]
  | cons c t ih =>
    intro j
    unfold identLoop
    split
    · simp
    · split
      · simp
      · split
        · simp
        · simp only
          have := ih (j + 1)
          omega

theorem keyword_match_ne_newline (buffer : List Char) :
    keyword_match buffer ≠ .Newline := by
  unfold keyword_match
  repeat' split
  all_goals simp

end Tetanus

namespace Tetanus

theorem find_symbol_token_isSome {code : List Char} {idx : Nat} (line : Nat)
    {c : Char} {t : List Char} (hd : code.drop idx = c :: t) :
    (find_symbol_token code idx line).isSome = isSymbolChar c := by
  unfold find_symbol_token
  rw [hd]
  simp only [List.head?_cons]
  by_cases hx0 : c = '"'
  · rw [if_pos hx0]
    rcases strLoop code (code.length + 1) (idx + 1) with e | _ | _ <;>
      simp [isSymbolChar, hx0]
  · rw [if_neg hx0]
    by_cases hx1 : c = '('
    · rw [if_pos hx1]
      simp [isSymbolChar, hx1]
    · rw [if_neg hx1]
      by_cases hx2 : c = ')'
      · rw [if_pos hx2]
        simp [isSymbolChar, hx2]
      · rw [if_neg hx2]
        by_cases hx3 : c = '{'
        · rw [if_pos hx3]
          simp [isSymbolChar, hx3]
        · rw [if_neg hx3]
          by_cases hx4 : c = '}'
          · rw [if_pos hx4]
            simp [isSymbolChar, hx4]
          · rw [if_neg hx4]
            by_cases hx5 : c = '+'
            · rw [if_pos hx5]
              simp [isSymbolChar, hx5]
            · rw [if_neg hx5]
              by_cases hx6 : c = '-'
              · rw [if_pos hx6]
                simp [isSymbolChar, hx6]
              · rw [if_neg hx6]
                by_cases hx7 : c = '*'
                · rw [if_pos hx7]
                  simp [isSymbolChar, hx7]
                · rw [if_neg hx7]
                  by_cases hx8 : c = '/'
                  · rw [if_pos hx8]
                    simp [isSymbolChar, hx8]
                  · rw [if_neg hx8]
                    by_cases hx9 : c = '='
                    · rw [if_pos hx9]
                      simp [isSymbolChar, hx9]
                    · rw [if_neg hx9]
                      by_cases hx10 : c = '<'
                      · rw [if_pos hx10]
                        simp [isSymbolChar, hx10]
                      · rw [if_neg hx10]
                        by_cases hx11 : c = '>'
                        · rw [if_pos hx11]
                          simp [isSymbolChar, hx11]
                        · rw [if_neg hx11]
                          by_cases hx12 : c = '.'
                          · rw [if_pos hx12]
                            simp [isSymbolChar, hx12]
                          · rw [if_neg hx12]
                            by_cases hx13 : c = ','
                            · rw [if_pos hx13]
                              simp [isSymbolChar, hx13]
                            · rw [if_neg hx13]
                              by_cases hx14 : c = '\n'
                              · rw [if_pos hx14]
                                simp [isSymbolChar, hx14]
                              · rw [if_neg hx14]
                                simp [isSymbolChar, hx0, hx1, hx2, hx3, hx4, hx5, hx6, hx7, hx8, hx9, hx10, hx11, hx12, hx13, hx14]

theorem find_symbol_token_none {code : List Char} {idx : Nat} (line : Nat)
    {c : Char} {t : List Char} (hd : code.drop idx = c :: t)
    (hc : isSymbolChar c = false) :
    find_symbol_token code idx line = none := by
  have hs := find_symbol_token_isSome line hd
  rw [hc] at hs
  cases hfst : find_symbol_token code idx line
  · rfl
  · rw [hfst] at hs
    simp at hs

theorem find_symbol_token_ok {code : List Char} {idx line : Nat} {tok : Token}
    {i2 l2 : Nat} (h : find_symbol_token code idx line = some (.ok (tok, i2, l2))) :
    idx ≤ i2 ∧ line ≤ l2 ∧ (tok = .Newline → l2 = line + 1) ∧
      (tok ≠ .Newline → l2 = line) := by
  unfold find_symbol_token at h
  rcases hd : (code.drop idx).head? with _ | ch
  · rw [hd] at h
    exact Option.noConfusion h
  · rw [hd] at h
    dsimp only at h
    by_cases hx0 : ch = '"'
    · rw [if_pos hx0] at h
      rcases hs : strLoop code (code.length + 1) (idx + 1) with e | _ | _ <;>
        rw [hs] at h
      · injection h with hA
        injection hA with hB
        injection hB with hB1 hB2
        injection hB2 with hB3 hB4
        subst hB1
        subst hB3
        subst hB4
        have hge := strLoop_found_ge code (code.length + 1) (idx + 1) e hs
        exact ⟨by omega, Nat.le_refl line, by simp, fun hcon => rfl⟩
      · injection h with hA
        exact LexResult.noConfusion hA
      · injection h with hA
        exact LexResult.noConfusion hA
    · rw [if_neg hx0] at h
      by_cases hx1 : ch = '('
      · rw [if_pos hx1] at h
        injection h with hA
        injection hA with hB
        injection hB with hB1 hB2
        injection hB2 with hB3 hB4
        subst hB1
        subst hB3
        subst hB4
        exact ⟨Nat.le_succ idx, Nat.le_refl line, by simp, fun hcon => rfl⟩
      · rw [if_neg hx1] at h
        by_cases hx2 : ch = ')'
        · rw [if_pos hx2] at h
          injection h with hA
          injection hA with hB
          injection hB with hB1 hB2
          injection hB2 with hB3 hB4
          subst hB1
          subst hB3
          subst hB4
          exact ⟨Nat.le_succ idx, Nat.le_refl line, by simp, fun hcon => rfl⟩
        · rw [if_neg hx2] at h
          by_cases hx3 : ch = '{'
          · rw [if_pos hx3] at h
            injection h with hA
            injection hA with hB
            injection hB with hB1 hB2
            injection hB2 with hB3 hB4
            subst hB1
            subst hB3
            subst hB4
            exact ⟨Nat.le_succ idx, Nat.le_refl line, by simp, fun hcon => rfl⟩
          · rw [if_neg hx3] at h
            by_cases hx4 : ch = '}'
            · rw [if_pos hx4] at h
              injection h with hA
              injection hA with hB
              injection hB with hB1 hB2
              injection hB2 with hB3 hB4
              subst hB1
              subst hB3
              subst hB4
              exact ⟨Nat.le_succ idx, Nat.le_refl line, by simp, fun hcon => rfl⟩
            · rw [if_neg hx4] at h
              by_cases hx5 : ch = '+'
              · rw [if_pos hx5] at h
                injection h with hA
                injection hA with hB
                injection hB with hB1 hB2
                injection hB2 with hB3 hB4
                subst hB1
                subst hB3
                subst hB4
                exact ⟨Nat.le_succ idx, Nat.le_refl line, by simp, fun hcon => rfl⟩
              · rw [if_neg hx5] at h
                by_cases hx6 : ch = '-'
                · rw [if_pos hx6] at h
                  injection h with hA
                  injection hA with hB
                  injection hB with hB1 hB2
                  injection hB2 with hB3 hB4
                  subst hB1
                  subst hB3
                  subst hB4
                  exact ⟨Nat.le_succ idx, Nat.le_refl line, by simp, fun hcon => rfl⟩
                · rw [if_neg hx6] at h
                  by_cases hx7 : ch = '*'
                  · rw [if_pos hx7] at h
                    injection h with hA
                    injection hA with hB
                    injection hB with hB1 hB2
                    injection hB2 with hB3 hB4
                    subst hB1
                    subst hB3
                    subst hB4
                    exact ⟨Nat.le_succ idx, Nat.le_refl line, by simp, fun hcon => rfl⟩
                  · rw [if_neg hx7] at h
                    by_cases hx8 : ch = '/'
                    · rw [if_pos hx8] at h
                      injection h with hA
                      injection hA with hB
                      injection hB with hB1 hB2
                      injection hB2 with hB3 hB4
                      subst hB1
                      subst hB3
                      subst hB4
                      exact ⟨Nat.le_succ idx, Nat.le_refl line, by simp, fun hcon => rfl⟩
                    · rw [if_neg hx8] at h
                      by_cases hx9 : ch = '='
                      · rw [if_pos hx9] at h
                        injection h with hA
                        injection hA with hB
                        injection hB with hB1 hB2
                        injection hB2 with hB3 hB4
                        subst hB1
                        subst hB3
                        subst hB4
                        exact ⟨Nat.le_succ idx, Nat.le_refl line, by simp, fun hcon => rfl⟩
                      · rw [if_neg hx9] at h
                        by_cases hx10 : ch = '<'
                        · rw [if_pos hx10] at h
                          injection h with hA
                          injection hA with hB
                          injection hB with hB1 hB2
                          injection hB2 with hB3 hB4
                          subst hB1
                          subst hB3
                          subst hB4
                          exact ⟨Nat.le_succ idx, Nat.le_refl line, by simp, fun hcon => rfl⟩
                        · rw [if_neg hx10] at h
                          by_cases hx11 : ch = '>'
                          · rw [if_pos hx11] at h
                            injection h with hA
                            injection hA with hB
                            injection hB with hB1 hB2
                            injection hB2 with hB3 hB4
                            subst hB1
                            subst hB3
                            subst hB4
                            exact ⟨Nat.le_succ idx, Nat.le_refl line, by simp, fun hcon => rfl⟩
                          · rw [if_neg hx11] at h
                            by_cases hx12 : ch = '.'
                            · rw [if_pos hx12] at h
                              injection h with hA
                              injection hA with hB
                              injection hB with hB1 hB2
                              injection hB2 with hB3 hB4
                              subst hB1
                              subst hB3
                              subst hB4
                              exact ⟨Nat.le_succ idx, Nat.le_refl line, by simp, fun hcon => rfl⟩
                            · rw [if_neg hx12] at h
                              by_cases hx13 : ch = ','
                              · rw [if_pos hx13] at h
                                injection h with hA
                                injection hA with hB
                                injection hB with hB1 hB2
                                injection hB2 with hB3 hB4
                                subst hB1
                                subst hB3
                                subst hB4
                                exact ⟨Nat.le_succ idx, Nat.le_refl line, by simp, fun hcon => rfl⟩
                              · rw [if_neg hx13] at h
                                by_cases hx14 : ch = '\n'
                                · rw [if_pos hx14] at h
                                  injection h with hA
                                  injection hA with hB
                                  injection hB with hB1 hB2
                                  injection hB2 with hB3 hB4
                                  subst hB1
                                  subst hB3
                                  subst hB4
                                  exact ⟨Nat.le_succ idx, Nat.le_succ line, fun hcon => rfl, by simp⟩
                                · rw [if_neg hx14] at h
                                  exact Option.noConfusion h

theorem find_symbol_token_err {code : List Char} {idx line : Nat} {f : LexerError}
    (h : find_symbol_token code idx line = some (.err f)) :
    f = ⟨.UnmatchedToken, some (msgUnmatched line)⟩ := by
  unfold find_symbol_token at h
  rcases hd : (code.drop idx).head? with _ | ch
  · rw [hd] at h
    exact Option.noConfusion h
  · rw [hd] at h
    dsimp only at h
    by_cases hx0 : ch = '"'
    · rw [if_pos hx0] at h
      rcases hs : strLoop code (code.length + 1) (idx + 1) with e | _ | _ <;>
        rw [hs] at h
      · injection h with hA
        exact LexResult.noConfusion hA
      · injection h with hA
        injection hA with hB
        exact hB.symm
      · injection h with hA
        exact LexResult.noConfusion hA
    · rw [if_neg hx0] at h
      by_cases hx1 : ch = '('
      · rw [if_pos hx1] at h
        injection h with hA
        exact LexResult.noConfusion hA
      · rw [if_neg hx1] at h
        by_cases hx2 : ch = ')'
        · rw [if_pos hx2] at h
          injection h with hA
          exact LexResult.noConfusion hA
        · rw [if_neg hx2] at h
          by_cases hx3 : ch = '{'
          · rw [if_pos hx3] at h
            injection h with hA
            exact LexResult.noConfusion hA
          · rw [if_neg hx3] at h
            by_cases hx4 : ch = '}'
            · rw [if_pos hx4] at h
              injection h with hA
              exact LexResult.noConfusion hA
            · rw [if_neg hx4] at h
              by_cases hx5 : ch = '+'
              · rw [if_pos hx5] at h
                injection h with hA
                exact LexResult.noConfusion hA
              · rw [if_neg hx5] at h
                by_cases hx6 : ch = '-'
                · rw [if_pos hx6] at h
                  injection h with hA
                  exact LexResult.noConfusion hA
                · rw [if_neg hx6] at h
                  by_cases hx7 : ch = '*'
                  · rw [if_pos hx7] at h
                    injection h with hA
                    exact LexResult.noConfusion hA
                  · rw [if_neg hx7] at h
                    by_cases hx8 : ch = '/'
                    · rw [if_pos hx8] at h
                      injection h with hA
                      exact LexResult.noConfusion hA
                    · rw [if_neg hx8] at h
                      by_cases hx9 : ch = '='
                      · rw [if_pos hx9] at h
                        injection h with hA
                        exact LexResult.noConfusion hA
                      · rw [if_neg hx9] at h
                        by_cases hx10 : ch = '<'
                        · rw [if_pos hx10] at h
                          injection h with hA
                          exact LexResult.noConfusion hA
                        · rw [if_neg hx10] at h
                          by_cases hx11 : ch = '>'
                          · rw [if_pos hx11] at h
                            injection h with hA
                            exact LexResult.noConfusion hA
                          · rw [if_neg hx11] at h
                            by_cases hx12 : ch = '.'
                            · rw [if_pos hx12] at h
                              injection h with hA
                              exact LexResult.noConfusion hA
                            · rw [if_neg hx12] at h
                              by_cases hx13 : ch = ','
                              · rw [if_pos hx13] at h
                                injection h with hA
                                exact LexResult.noConfusion hA
                              · rw [if_neg hx13] at h
                                by_cases hx14 : ch = '\n'
                                · rw [if_pos hx14] at h
                                  injection h with hA
                                  exact LexResult.noConfusion hA
                                · rw [if_neg hx14] at h
                                  exact Option.noConfusion h

theorem digit_not_ws {c : Char} (h : isAsciiDigit c = true) :
    is_whitespace c = false := by
  simp only [is_whitespace, Bool.or_eq_false_iff, decide_eq_false_iff_not]
  constructor <;> (rintro rfl; exact absurd h (by decide))

theorem digit_not_symbol {c : Char} (h : isAsciiDigit c = true) :
    isSymbolChar c = false := by
  simp only [isSymbolChar, Bool.or_eq_false_iff, decide_eq_false_iff_not]
  repeat' apply And.intro
  all_goals (rintro rfl; exact absurd h (by decide))

end Tetanus

namespace Tetanus

theorem find_token_mono_line {code : List Char} {idx0 len line : Nat} {tok : Token}
    {i2 l2 : Nat} (h : find_token code idx0 len line = .ok (tok, i2, l2)) :
    idx0 ≤ i2 ∧ line ≤ l2 ∧ (tok = .Newline → l2 = line + 1) ∧
      (tok ≠ .Newline → l2 = line) := by
  have hskip : idx0 ≤ skip_whitespace code idx0 := skip_ge code idx0
  unfold find_token at h
  by_cases hlt : skip_whitespace code idx0 < len
  · rw [if_pos hlt] at h
    rcases hfst : find_symbol_token code (skip_whitespace code idx0) line with
      _ | (⟨tk, i3, l3⟩ | f | _)
    · rw [hfst] at h
      dsimp only at h
      rcases hd2 : (code.drop (skip_whitespace code idx0)).head? with _ | ch
      · rw [hd2] at h
        exact absurd h (by simp)
      · rw [hd2] at h
        dsimp only at h
        by_cases hdig : isAsciiDigit ch
        · rw [if_pos hdig] at h
          rcases hfs : from_str_i64
              (ch :: (code.drop (skip_whitespace code idx0 + 1)).takeWhile isAsciiDigit)
            with _ | m
          · rw [hfs] at h
            exact absurd h (by simp)
          · rw [hfs] at h
            dsimp only at h
            injection h with hB
            injection hB with hB1 hB2
            injection hB2 with hB3 hB4
            subst hB1
            subst hB3
            subst hB4
            exact ⟨by omega, Nat.le_refl line, by simp, fun hc => rfl⟩
        · rw [if_neg hdig] at h
          injection h with hB
          injection hB with hB1 hB2
          injection hB2 with hB3 hB4
          subst hB1
          subst hB3
          subst hB4
          have hgl := identLoop_ge code line
            (code.drop (skip_whitespace code idx0 + 1)) (skip_whitespace code idx0 + 1)
          refine ⟨by omega, Nat.le_refl line, ?_, fun hc => rfl⟩
          intro hk
          exact absurd hk (keyword_match_ne_newline _)
    · rw [hfst] at h
      dsimp only at h
      injection h with hB
      injection hB with hB1 hB2
      injection hB2 with hB3 hB4
      subst hB1
      subst hB3
      subst hB4
      have hsym := find_symbol_token_ok hfst
      exact ⟨by omega, hsym.2.1, hsym.2.2.1, hsym.2.2.2⟩
    · rw [hfst] at h
      exact absurd h (by simp)
    · rw [hfst] at h
      exact absurd h (by simp)
  · rw [if_neg hlt] at h
    exact absurd h (by simp)

theorem find_token_err_shape {code : List Char} {idx0 len line : Nat} {f : LexerError}
    (h : find_token code idx0 len line = .err f) :
    f.kind = .EndOfData ∨
    f = ⟨.UnmatchedToken, some (msgUnmatched line)⟩ ∨
    ∃ buf, f = ⟨.IntegerOverflow, some (msgOverflow buf line)⟩ := by
  unfold find_token at h
  by_cases hlt : skip_whitespace code idx0 < len
  · rw [if_pos hlt] at h
    rcases hfst : find_symbol_token code (skip_whitespace code idx0) line with
      _ | (⟨tk, i3, l3⟩ | f0 | _)
    · rw [hfst] at h
      dsimp only at h
      rcases hd2 : (code.drop (skip_whitespace code idx0)).head? with _ | ch
      · rw [hd2] at h
        exact absurd h (by simp)
      · rw [hd2] at h
        dsimp only at h
        by_cases hdig : isAsciiDigit ch
        · rw [if_pos hdig] at h
          rcases hfs : from_str_i64
              (ch :: (code.drop (skip_whitespace code idx0 + 1)).takeWhile isAsciiDigit)
            with _ | m
          · rw [hfs] at h
            dsimp only at h
            injection h with hB
            refine Or.inr (Or.inr ⟨_, hB.symm⟩)
          · rw [hfs] at h
            exact absurd h (by simp)
        · rw [if_neg hdig] at h
          exact absurd h (by simp)
    · rw [hfst] at h
      exact absurd h (by simp)
    · rw [hfst] at h
      dsimp only at h
      injection h with hB
      subst hB
      exact Or.inr (Or.inl (find_symbol_token_err hfst))
    · rw [hfst] at h
      exact absurd h (by simp)
  · rw [if_neg hlt] at h
    injection h with hB
    subst hB
    exact Or.inl rfl

end Tetanus

namespace Tetanus

theorem ws_sub {c : Char} (h : rustIsWhitespace c = false) :
    is_whitespace c = false := by
  cases hiw : is_whitespace c
  · rfl
  · exfalso
    simp only [is_whitespace, Bool.or_eq_true, decide_eq_true_eq] at hiw
    rcases hiw with rfl | rfl <;> exact absurd h (by decide)

theorem identLoop_nil (code : List Char) (line : Nat) (j : Nat) :
    identLoop code line [] j = ([], j) := rfl

theorem identLoop_cons (code : List Char) (line : Nat) (ch : Char)
    (rest : List Char) (j : Nat) :
    identLoop code line (ch :: rest) j =
      if rustIsWhitespace ch then ([], j)
      else if ch = '"' then ([], j)
      else if (find_symbol_token code j line).isSome then ([], j)
      else (ch :: (identLoop code line rest (j + 1)).1,
            (identLoop code line rest (j + 1)).2) := rfl

theorem identLoop_spec (code : List Char) (line : Nat) :
    ∀ (w rest : List Char) (j : Nat),
      code.drop j = w ++ rest →
      (∀ c ∈ w, rustIsWhitespace c = false ∧ isSymbolChar c = false) →
      (rest = [] ∨ ∃ d t2, rest = d :: t2 ∧
        (rustIsWhitespace d = true ∨ d = '"' ∨ isSymbolChar d = true)) →
      identLoop code line (code.drop j) j = (w, j + w.length) := by
  intro w
  induction w with
  | nil =>
    intro rest j hdrop hw hrest
    rcases hrest with rfl | ⟨d, t2, rfl, hd⟩
    · simp only [List.nil_append] at hdrop
      rw [hdrop]
      simp [identLoop]
    · simp only [List.nil_append] at hdrop
      rw [hdrop]
      rw [identLoop_cons]
      by_cases hws : rustIsWhitespace d = true
      · rw [if_pos hws]
        simp
      · rw [if_neg hws]
        by_cases hq : d = '"'
        · rw [if_pos hq]
          simp
        · rw [if_neg hq]
          rcases hd with hd | hd | hd
          · exact absurd hd hws
          · exact absurd hd hq
          · have hsome : (find_symbol_token code j line).isSome = true := by
              rw [find_symbol_token_isSome line hdrop, hd]
            rw [if_pos hsome]
            simp
  | cons c w2 ih =>
    intro rest j hdrop hw hrest
    obtain ⟨hcw, hcs⟩ := hw c (List.mem_cons_self c w2)
    have hcq : ¬ c = '"' := by
      intro hq
      rw [hq] at hcs
      exact absurd hcs (by decide)
    simp only [List.cons_append] at hdrop
    rw [hdrop]
    rw [identLoop_cons]
    rw [if_neg (by simp [hcw])]
    rw [if_neg hcq]
    have hnone : (find_symbol_token code j line).isSome = false := by
      rw [find_symbol_token_isSome line (by simpa using hdrop), hcs]
    rw [if_neg (by simp [hnone])]
    have hdrop2 : code.drop (j + 1) = w2 ++ rest :=
      drop_succ_of_drop (by simpa using hdrop)
    have ihres := ih rest (j + 1) hdrop2
      (fun x hx => hw x (List.mem_cons_of_mem c hx)) hrest
    rw [hdrop2] at ihres
    simp only [ihres]
    simp only [Prod.mk.injEq, List.length_cons]
    exact ⟨trivial, by omega⟩

theorem identBranch_spec (code : List Char) (line : Nat) (idx : Nat) (c : Char)
    (w rest : List Char)
    (hdrop : code.drop idx = c :: (w ++ rest))
    (hcw : rustIsWhitespace c = false)
    (hcd : isAsciiDigit c = false)
    (hcs : isSymbolChar c = false)
    (hw : ∀ x ∈ w, rustIsWhitespace x = false ∧ isSymbolChar x = false)
    (hrest : rest = [] ∨ ∃ d t2, rest = d :: t2 ∧
      (rustIsWhitespace d = true ∨ d = '"' ∨ isSymbolChar d = true)) :
    find_token code idx code.length line =
      .ok (keyword_match (c :: w), idx + 1 + w.length, line) := by
  have hskip : skip_whitespace code idx = idx := skip_stop hdrop (ws_sub hcw)
  unfold find_token
  rw [hskip]
  rw [if_pos (drop_lt_length hdrop)]
  rw [find_symbol_token_none line hdrop hcs]
  dsimp only
  rw [hdrop]
  simp only [List.head?_cons]
  rw [if_neg (by simp [hcd])]
  have hil := identLoop_spec code line w rest (idx + 1)
    (drop_succ_of_drop hdrop) hw hrest
  simp only [hil]

end Tetanus

namespace Tetanus

theorem tokenizeAux_zero (code : List Char) (idx line : Nat) (acc : List Token) :
    tokenizeAux code 0 idx line acc = .abort := rfl

theorem tokenizeAux_succ (code : List Char) (fuel idx line : Nat) (acc : List Token) :
    tokenizeAux code (fuel + 1) idx line acc =
      match find_token code idx code.length line with
      | .ok (token, index, newLine) =>
        tokenizeAux code fuel index newLine (acc ++ [token])
      | .err f =>
        match f.kind with
        | .EndOfData => .ok acc
        | .UnmatchedToken => .err f
        | .IntegerOverflow => .err f
      | .abort => .abort := rfl

/-! ## Universal claim theorems -/

/-- C7 (amended). Across every successful scan step the cursor offset and
the line number are monotonically non-decreasing; the line number
increases by exactly one when the consumed token is a `Newline` and is
unchanged otherwise — in particular, newline characters consumed inside a
string literal leave the line counter unchanged. -/
theorem claim7_step_monotone (code : List Char) (idx len line : Nat)
    (tok : Token) (idx2 line2 : Nat)
    (h : find_token code idx len line = .ok (tok, idx2, line2)) :
    idx ≤ idx2 ∧ line ≤ line2 ∧
      (tok = .Newline → line2 = line + 1) ∧ (tok ≠ .Newline → line2 = line) :=
  find_token_mono_line h

theorem claim7_step_monotone_witness :
    (0 : Nat) ≤ 1 ∧ (1 : Nat) ≤ 1 ∧
      (Token.Ident (("a").data) = Token.Newline → (1 : Nat) = 1 + 1) ∧
      (Token.Ident (("a").data) ≠ Token.Newline → (1 : Nat) = 1) :=
  claim7_step_monotone (("a").data) 0 1 1 (.Ident (("a").data)) 1 1 (by decide)

/-- C9. The identifier scan, entered at a character that is not a digit,
not whitespace, not a quote and not a symbol, consumes exactly the run of
characters up to the first Unicode whitespace, double quote, or
symbol-matching position — digits do not stop it — and in particular
`x1` tokenizes to the single token `Ident "x1"`. -/
theorem claim9_ident_scan :
    tokenize (("x1").data) = .ok [.Ident (("x1").data)] ∧
    ∀ (code : List Char) (idx line : Nat) (c : Char) (w rest : List Char),
      code.drop idx = c :: (w ++ rest) →
      rustIsWhitespace c = false →
      isAsciiDigit c = false →
      isSymbolChar c = false →
      (∀ x ∈ w, rustIsWhitespace x = false ∧ isSymbolChar x = false) →
      (rest = [] ∨ ∃ d t2, rest = d :: t2 ∧
        (rustIsWhitespace d = true ∨ d = '"' ∨ isSymbolChar d = true)) →
      ∃ tok, find_token code idx code.length line =
        .ok (tok, idx + 1 + w.length, line) := by
  refine ⟨by decide, ?_⟩
  intro code idx line c w rest hdrop hcw hcd hcs hw hrest
  exact ⟨keyword_match (c :: w),
    identBranch_spec code line idx c w rest hdrop hcw hcd hcs hw hrest⟩

theorem claim9_ident_scan_witness :
    ∃ tok, find_token (("x1(").data) 0 (("x1(").data).length 1 =
      .ok (tok, 0 + 1 + 1, 1) := by
  have h := claim9_ident_scan.2 (("x1(").data) 0 1 'x' ['1'] ['(']
    (by decide) (by decide) (by decide) (by decide) (by decide)
    (Or.inr ⟨'(', [], rfl, Or.inr (Or.inr (by decide))⟩)
  simpa using h

/-- C10. The empty input, and every input consisting only of space and tab
characters, tokenizes successfully to the empty token sequence: the
whitespace skip reaches the end of input and the internal `EndOfData`
sentinel terminates the loop without surfacing an error. -/
theorem claim10_trivial_inputs :
    tokenize [] = .ok [] ∧
    ∀ code : List Char, (∀ c ∈ code, c = ' ' ∨ c = '\t') →
      tokenize code = .ok [] := by
  refine ⟨by decide, ?_⟩
  intro code hws
  have hskip : skip_whitespace code 0 = code.length := by
    unfold skip_whitespace
    rw [List.drop_zero]
    rw [takeWhile_all (fun c hc => by rcases hws c hc with rfl | rfl <;> decide)]
    omega
  have hft : find_token code 0 code.length 1 = .err ⟨.EndOfData, none⟩ := by
    unfold find_token
    rw [hskip]
    rw [if_neg (lt_irrefl code.length)]
  unfold tokenize
  rw [tokenizeAux_succ, hft]

theorem claim10_trivial_inputs_witness :
    tokenize (("  \t ").data) = .ok [] :=
  claim10_trivial_inputs.2 (("  \t ").data) (by decide)

end Tetanus

namespace Tetanus

/-- C5 (amended). Every nonempty all-digit input whose decimal value
exceeds `i64::MAX` fails with `IntegerOverflow`, and the description
embeds the offending digit run and line 1; the claim's own example
`99999999999999999999` is an instance.  (The original universal claim over
all inputs containing an oversized maximal digit run is refuted by
`claim5_counterexample`: a run absorbed into an identifier never reaches
the number scanner.) -/
theorem claim5_overflow (ds : List Char) (hne : ds ≠ [])
    (hdig : ∀ c ∈ ds, isAsciiDigit c = true)
    (hbig : 9223372036854775807 < digitsToNat ds) :
    tokenize ds = .err ⟨.IntegerOverflow, some (msgOverflow ds 1)⟩ := by
  rcases ds with _ | ⟨d, t⟩
  · exact absurd rfl hne
  · have hd0 : isAsciiDigit d = true := hdig d (by simp)
    have hdz : List.drop 0 (d :: t) = d :: t := List.drop_zero (d :: t)
    have hskip : skip_whitespace (d :: t) 0 = 0 :=
      skip_stop hdz (digit_not_ws hd0)
    have hfst : find_symbol_token (d :: t) 0 1 = none :=
      find_symbol_token_none 1 hdz (digit_not_symbol hd0)
    have htw : (List.drop (0 + 1) (d :: t)).takeWhile isAsciiDigit = t := by
      simp only [List.drop_succ_cons, List.drop_zero]
      exact takeWhile_all (fun x hx => hdig x (List.mem_cons_of_mem d hx))
    have hfs : from_str_i64 (d :: t) = none := by
      unfold from_str_i64
      rw [if_neg (by simp)]
      rw [if_pos (by rw [List.all_eq_true]; exact hdig)]
      rw [if_neg (by omega)]
    have hft : find_token (d :: t) 0 (d :: t).length 1 =
        .err ⟨.IntegerOverflow, some (msgOverflow (d :: t) 1)⟩ := by
      unfold find_token
      rw [hskip]
      rw [if_pos (by simp)]
      rw [hfst]
      dsimp only
      simp only [List.drop_zero, List.head?_cons]
      rw [if_pos hd0]
      rw [htw, hfs]
    unfold tokenize
    rw [tokenizeAux_succ, hft]

theorem claim5_overflow_witness :
    tokenize (("99999999999999999999").data) =
      .err ⟨.IntegerOverflow,
        some (msgOverflow (("99999999999999999999").data) 1)⟩ :=
  claim5_overflow (("99999999999999999999").data) (by decide) (by decide)
    (by decide)

/-- C8 (amended). At any scan position holding a maximal non-symbol run
that does not begin with an ASCII digit, the scanner consumes exactly that
run and maps each of the nine reserved spellings to its keyword token
(`true`/`false` to `Bool`), and every other such run to `Ident` carrying
the run's text.  (The original claim, quantified over all maximal
non-symbol runs, is refuted by `claim8_counterexample`: a digit-initial
run such as `123` goes to the number scanner instead.) -/
theorem claim8_keywords (code : List Char) (idx line : Nat) (c : Char)
    (w rest : List Char)
    (hdrop : code.drop idx = c :: (w ++ rest))
    (hcw : rustIsWhitespace c = false)
    (hcd : isAsciiDigit c = false)
    (hcs : isSymbolChar c = false)
    (hw : ∀ x ∈ w, rustIsWhitespace x = false ∧ isSymbolChar x = false)
    (hrest : rest = [] ∨ ∃ d t2, rest = d :: t2 ∧
      (rustIsWhitespace d = true ∨ d = '"' ∨ isSymbolChar d = true)) :
    ∃ tok, find_token code idx code.length line =
        .ok (tok, idx + 1 + w.length, line) ∧
      (c :: w = ("if").data → tok = .If) ∧
      (c :: w = ("loop").data → tok = .Loop) ∧
      (c :: w = ("break").data → tok = .Break) ∧
      (c :: w = ("continue").data → tok = .Continue) ∧
      (c :: w = ("let").data → tok = .Let) ∧
      (c :: w = ("fn").data → tok = .Fn) ∧
      (c :: w = ("macro").data → tok = .Macro) ∧
      (c :: w = ("true").data → tok = .Bool true) ∧
      (c :: w = ("false").data → tok = .Bool false) ∧
      (c :: w ∉ [("if").data, ("loop").data, ("break").data, ("continue").data,
          ("let").data, ("fn").data, ("macro").data, ("true").data,
          ("false").data] →
        tok = .Ident (c :: w)) := by
  refine ⟨keyword_match (c :: w),
    identBranch_spec code line idx c w rest hdrop hcw hcd hcs hw hrest,
    ?_, ?_, ?_, ?_, ?_, ?_, ?_, ?_, ?_, ?_⟩
  case _ => intro hk; rw [hk]; decide
  case _ => intro hk; rw [hk]; decide
  case _ => intro hk; rw [hk]; decide
  case _ => intro hk; rw [hk]; decide
  case _ => intro hk; rw [hk]; decide
  case _ => intro hk; rw [hk]; decide
  case _ => intro hk; rw [hk]; decide
  case _ => intro hk; rw [hk]; decide
  case _ => intro hk; rw [hk]; decide
  case _ =>
    intro hk
    simp only [List.mem_cons, List.not_mem_nil, or_false, not_or] at hk
    obtain ⟨kx1, kx2, kx3, kx4, kx5, kx6, kx7, kx8, kx9⟩ := hk
    unfold keyword_match
    rw [if_neg kx1, if_neg kx2, if_neg kx3, if_neg kx4, if_neg kx5, if_neg kx6,
        if_neg kx7, if_neg kx8, if_neg kx9]

theorem claim8_keywords_witness :
    ∃ tok, find_token (("true ").data) 0 (("true ").data).length 1 =
        .ok (tok, 0 + 1 + ("rue").data.length, 1) ∧
      ('t' :: ("rue").data = ("if").data → tok = .If) ∧
      ('t' :: ("rue").data = ("loop").data → tok = .Loop) ∧
      ('t' :: ("rue").data = ("break").data → tok = .Break) ∧
      ('t' :: ("rue").data = ("continue").data → tok = .Continue) ∧
      ('t' :: ("rue").data = ("let").data → tok = .Let) ∧
      ('t' :: ("rue").data = ("fn").data → tok = .Fn) ∧
      ('t' :: ("rue").data = ("macro").data → tok = .Macro) ∧
      ('t' :: ("rue").data = ("true").data → tok = .Bool true) ∧
      ('t' :: ("rue").data = ("false").data → tok = .Bool false) ∧
      ('t' :: ("rue").data ∉ [("if").data, ("loop").data, ("break").data,
          ("continue").data, ("let").data, ("fn").data, ("macro").data,
          ("true").data, ("false").data] →
        tok = .Ident ('t' :: ("rue").data)) :=
  claim8_keywords (("true ").data) 0 1 't' (("rue").data) [' ']
    (by decide) (by decide) (by decide) (by decide) (by decide)
    (Or.inr ⟨' ', [], rfl, Or.inl (by decide)⟩)

end Tetanus

namespace Tetanus

/-- C6 (amended). The input `a\nb\nc` tokenizes to exactly
`[Ident a, Newline, Ident b, Newline, Ident c]`; and every error returned
by the tokenize loop arises from a scan step whose line argument equals
one plus the number of `Newline` tokens emitted before the failure, and
that line number is the one embedded in the error's description — so an
error detected after two newline characters have been consumed as
`Newline` tokens reports line 3.  (Newline characters consumed inside a
string-literal scan do not advance the counter; see
`claim6_counterexample`.) -/
theorem claim6_lines :
    tokenize (("a\nb\nc").data) =
      .ok [.Ident (("a").data), .Newline, .Ident (("b").data), .Newline,
           .Ident (("c").data)] ∧
    ∀ (code : List Char) (fuel idx : Nat) (acc : List Token) (e : LexerError),
      tokenizeAux code fuel idx (newlineCount acc + 1) acc = .err e →
      ∃ idx2 acc2, newlineCount acc ≤ newlineCount acc2 ∧
        find_token code idx2 code.length (newlineCount acc2 + 1) = .err e ∧
        (e.desc = some (msgUnmatched (newlineCount acc2 + 1)) ∨
         ∃ buf, e.desc = some (msgOverflow buf (newlineCount acc2 + 1))) := by
  refine ⟨by decide, ?_⟩
  intro code fuel
  induction fuel with
  | zero =>
    intro idx acc e h
    rw [tokenizeAux_zero] at h
    exact absurd h (by simp)
  | succ n ih =>
    intro idx acc e h
    rw [tokenizeAux_succ] at h
    rcases hft : find_token code idx code.length (newlineCount acc + 1) with
      ⟨tk, i3, l3⟩ | f | _
    · rw [hft] at h
      dsimp only at h
      have hml := find_token_mono_line hft
      have hcount : newlineCount (acc ++ [tk]) =
          newlineCount acc + (if tk = Token.Newline then 1 else 0) := by
        unfold newlineCount
        rw [List.filter_append, List.length_append]
        congr 1
        by_cases hnl : tk = Token.Newline
        · rw [if_pos hnl]
          simp [hnl]
        · rw [if_neg hnl]
          simp [hnl]
      have hline : l3 = newlineCount (acc ++ [tk]) + 1 := by
        by_cases hnl : tk = .Newline
        · rw [hml.2.2.1 hnl, hcount, if_pos hnl]
        · rw [hml.2.2.2 hnl, hcount, if_neg hnl]
      rw [hline] at h
      obtain ⟨idx2, acc2, hle, hfind, hdesc⟩ := ih i3 (acc ++ [tk]) e h
      refine ⟨idx2, acc2, ?_, hfind, hdesc⟩
      have hmono : newlineCount acc ≤ newlineCount (acc ++ [tk]) := by
        rw [hcount]
        omega
      omega
    · rw [hft] at h
      dsimp only at h
      rcases hk : f.kind with _ | _ | _ <;> rw [hk] at h <;> dsimp only at h
      · exact absurd h (by simp)
      · injection h with hfe
        subst hfe
        refine ⟨idx, acc, Nat.le_refl _, hft, ?_⟩
        rcases find_token_err_shape hft with hsh | hsh | ⟨buf, hsh⟩
        · rw [hk] at hsh
          exact absurd hsh (by simp)
        · left
          rw [hsh]
        · right
          exact ⟨buf, by rw [hsh]⟩
      · injection h with hfe
        subst hfe
        refine ⟨idx, acc, Nat.le_refl _, hft, ?_⟩
        rcases find_token_err_shape hft with hsh | hsh | ⟨buf, hsh⟩
        · rw [hk] at hsh
          exact absurd hsh (by simp)
        · left
          rw [hsh]
        · right
          exact ⟨buf, by rw [hsh]⟩
    · rw [hft] at h
      exact absurd h (by simp)

theorem claim6_lines_witness :
    ∃ idx2 acc2,
      newlineCount ([] : List Token) ≤ newlineCount acc2 ∧
      find_token (("\n\n\"x").data) idx2 (("\n\n\"x").data).length
        (newlineCount acc2 + 1) =
        .err ⟨.UnmatchedToken, some (msgUnmatched 3)⟩ ∧
      ((⟨.UnmatchedToken, some (msgUnmatched 3)⟩ : LexerError).desc =
          some (msgUnmatched (newlineCount acc2 + 1)) ∨
       ∃ buf, (⟨.UnmatchedToken, some (msgUnmatched 3)⟩ : LexerError).desc =
          some (msgOverflow buf (newlineCount acc2 + 1))) :=
  claim6_lines.2 (("\n\n\"x").data) 5 0 []
    ⟨.UnmatchedToken, some (msgUnmatched 3)⟩ (by decide)

end Tetanus
